import Mathlib

/-!
Shallow embedding of `cmds/install.go` from the gofabric8 repository.

Go strings are modelled as Lean `String`s (for the URL/orchestration code)
and as `List Char` (for the semantic-version parsing code, where proofs
walk the characters).  External effects — `exec.LookPath`, `http.Get`,
`os.Create`/`os.Chmod`/`os.MkdirAll`, the GitHub release lookup — are
modelled as explicit oracle parameters: each embedded function takes the
outcome of every effectful sub-operation as an input and returns the
value the Go function returns together with the observable actions it
performed (files written, URLs fetched, extractors invoked).
-/

namespace Gofabric8

/-! ### Constants (`const` block of install.go) -/

def docker : String := "docker"
def dockerMachine : String := "docker-machine"
def minishiftFlag : String := "minishift"
def minishiftOwner : String := "jimmidyson"
def minishift : String := "minishift"
def minikube : String := "minikube"
def minishiftDownloadURL : String := "https://github.com/jimmidyson/"
def kubectl : String := "kubectl"
def kubernetes : String := "kubernetes"
def oc : String := "oc"
def binLocation : String := ".fabric8/bin/"
def kubeDownloadURL : String := "https://storage.googleapis.com/"
def ocTools : String := "openshift-origin-client-tools"

/-! ### The `downloadProperties` struct and `getDownloadProperties` -/

structure downloadProperties where
  clientBinary : String
  kubeDistroOrg : String
  kubeDistroRepo : String
  kubeBinary : String
  extraPath : String
  downloadURL : String
  isMiniShift : Bool
deriving Repr, DecidableEq

/-- `getDownloadProperties(isMinishift bool) downloadProperties`:
the zero value of the struct is filled in on one of two fixed branches. -/
def getDownloadProperties (isMinishift : Bool) : downloadProperties :=
  if isMinishift then
    { clientBinary := oc
      extraPath := "download/"
      kubeBinary := minishift
      downloadURL := minishiftDownloadURL
      kubeDistroOrg := minishiftOwner
      kubeDistroRepo := minishift
      isMiniShift := true }
  else
    { clientBinary := kubectl
      kubeBinary := minikube
      downloadURL := kubeDownloadURL
      kubeDistroOrg := kubernetes
      kubeDistroRepo := minikube
      isMiniShift := false
      extraPath := "" }

/-! ### `isInstalled`

Effect oracles: `home` is what `homedir.HomeDir()` returns (empty string
means unresolvable, upon which `util.Fatalf` terminates the process —
modelled as `none`); `configAbsent` is whether `os.Stat(home+"/.kube/config")`
fails with an `os.IsNotExist` error; `onPath b` is whether
`exec.LookPath b` succeeds. -/
def isInstalled (home : String) (configAbsent : Bool)
    (onPath : String → Bool) (isMinishift : Bool) : Option Bool :=
  if home = "" then none  -- util.Fatalf terminates the run
  else if configAbsent then some false
  else if ¬ onPath kubectl then some false
  else if isMinishift then
    if ¬ onPath minishift then some false
    else if ¬ onPath oc then some false
    else some true
  else
    if ¬ onPath minikube then some false
    else some true

/-! ### Errors and effect oracles -/

/-- Go `error` values returned by the effectful operations the embedded
functions perform.  The payloadless constructors stand for the opaque
errors of the corresponding standard-library calls. -/
inductive GoErr where
  | createErr
  | httpErr
  | copyErr
  | chmodErr
  | mkdirErr
  | zipOpenErr
  | openFileErr
  | githubErr
  | noReleaseName
  | semverErr
deriving Repr, DecidableEq

structure HttpResponse where
  status : Nat
  body : List Nat
deriving Repr, DecidableEq

/-- Observable state of the destination file after a call (content bytes
and permission mode). -/
structure FileState where
  content : List Nat
  mode : Nat
deriving Repr, DecidableEq

/-- `os.Create` creates the file with permission `0666` (before umask). -/
def createMode : Nat := 0o666

/-- Outcomes of the effectful sub-operations of `downloadFile`, supplied
as an oracle: whether `os.Create` fails, what `http.Get` returns, whether
`io.Copy` fails (with `partialLen` bytes already streamed), and whether
`os.Chmod` fails. -/
structure FetchEnv where
  createFails : Bool
  getResult : Except GoErr HttpResponse
  copyFails : Bool
  partialLen : Nat
  chmodFails : Bool
deriving Repr

/-- What `downloadFile` returned (`ret`, `none` = Go `nil`) and the state
of the destination file afterwards (`none` = no file was created). -/
structure FetchOutcome where
  ret : Option GoErr
  file : Option FileState
deriving Repr, DecidableEq

/-- `downloadFile(filepath, url string) error`.  Mirrors the Go body:
create the file (abort on error), `http.Get` (abort on error), `io.Copy`
(abort on error), then `os.Chmod(filepath, 0755)` whose return value is
discarded — the following `if err != nil` re-checks the stale, nil error
from `io.Copy` — and return `nil`. -/
def downloadFile (env : FetchEnv) : FetchOutcome :=
  if env.createFails then { ret := some GoErr.createErr, file := none }
  else
    match env.getResult with
    | Except.error e => { ret := some e, file := some ⟨[], createMode⟩ }
    | Except.ok resp =>
      if env.copyFails then
        { ret := some GoErr.copyErr
          file := some ⟨resp.body.take env.partialLen, createMode⟩ }
      else if env.chmodFails then
        { ret := none, file := some ⟨resp.body, createMode⟩ }
      else
        { ret := none, file := some ⟨resp.body, 0o755⟩ }

/-! ### The `install` orchestrator -/

inductive InstallStep where
  | mkBinDir
  | driver
  | kubernetesDistro
  | kubectlClient
  | openShiftClient
deriving Repr, DecidableEq

/-- `install(isMinishift bool)`: the sequence of steps the orchestrator
attempts, in order.  `mkdirFails` is whether
`os.MkdirAll(writeFileLocation, 0700)` fails; on failure the Go code runs
`util.Errorf` and falls through — there is no `return`.  The `util`
logging helpers are not under `src/`; modelled from the spec, which
describes this step as "Fatal-logged on failure but execution continues"
(`util.Fatalf`, by contrast, terminates the run).  Each later step's
error is passed to `util.Warnf` and does not affect the sequence, so the
step outcomes need no oracle here. -/
def install (isMinishift : Bool) (mkdirFails : Bool) : List InstallStep :=
  -- err := os.MkdirAll(...); if err != nil { util.Errorf(...) } — logs, no return
  let afterMkdir : List InstallStep := [InstallStep.mkBinDir]
  let _ := mkdirFails
  afterMkdir ++ [InstallStep.driver] ++ [InstallStep.kubernetesDistro] ++
    [InstallStep.kubectlClient] ++
    (if (getDownloadProperties isMinishift).isMiniShift then
      [InstallStep.openShiftClient]
    else [])

/-! ### `downloadKubernetes` -/

/-- What `downloadKubernetes` returned and did: `ret` is its Go return
value, `lookedUpVersion` whether it called `getLatestVersionFromGitHub`,
`downloaded` the `(destination, URL)` pair it passed to `downloadFile`
(if any), `alreadyOnPath` whether it logged the
"already available on your PATH" success message. -/
structure KubeResult where
  ret : Option GoErr
  lookedUpVersion : Bool
  downloaded : Option (String × String)
  alreadyOnPath : Bool
deriving Repr, DecidableEq

/-- `downloadKubernetes(d downloadProperties) error`.  Oracles: `goos`,
`goarch` are `runtime.GOOS`/`runtime.GOARCH`; `onPath b` is whether
`exec.LookPath b` succeeds; `versionLookup` is the result of
`getLatestVersionFromGitHub` rendered by `%s` as a version string;
`binDir` is `getFabric8BinLocation()`; `dlErr` the error returned by
`downloadFile`. -/
def downloadKubernetes (d : downloadProperties) (goos goarch : String)
    (onPath : String → Bool) (versionLookup : Except GoErr String)
    (binDir : String) (dlErr : Option GoErr) : KubeResult :=
  -- if runtime.GOOS == "windows" { d.kubeBinary += ".exe" }
  let kubeBinary := if goos = "windows" then d.kubeBinary ++ ".exe" else d.kubeBinary
  if ¬ onPath kubeBinary then
    match versionLookup with
    | Except.error e =>
      { ret := some e, lookedUpVersion := true, downloaded := none,
        alreadyOnPath := false }
    | Except.ok latestVersion =>
      -- fmt.Sprintf(d.downloadURL+d.kubeDistroRepo+"/releases/"+d.extraPath+
      --             "v%s/%s-%s-%s", latestVersion, d.kubeDistroRepo, os, arch)
      let kubeURL := d.downloadURL ++ d.kubeDistroRepo ++ "/releases/" ++
        d.extraPath ++ "v" ++ latestVersion ++ "/" ++ d.kubeDistroRepo ++
        "-" ++ goos ++ "-" ++ goarch
      let kubeURL := if goos = "windows" then kubeURL ++ ".exe" else kubeURL
      match dlErr with
      | some e =>
        { ret := some e, lookedUpVersion := true,
          downloaded := some (binDir ++ kubeBinary, kubeURL),
          alreadyOnPath := false }
      | none =>
        { ret := none, lookedUpVersion := true,
          downloaded := some (binDir ++ kubeBinary, kubeURL),
          alreadyOnPath := false }
  else
    { ret := none, lookedUpVersion := false, downloaded := none,
      alreadyOnPath := true }

/-! ### `downloadOpenShiftClient` -/

/-- Which extraction helper was invoked: `zipExtractor` is the Go
function `unzip`, `gzipExtractor` the Go function `ungzip`. -/
inductive Extractor where
  | zipExtractor
  | gzipExtractor
deriving Repr, DecidableEq

/-- What `downloadOpenShiftClient` returned and did: the URL it built,
the destination it downloaded to, and which extractor it dispatched to
with which `(archive, target)` arguments. -/
structure OcResult where
  ret : Option GoErr
  url : Option String
  downloadedTo : Option String
  extracted : Option (Extractor × String × String)
  alreadyOnPath : Bool
deriving Repr, DecidableEq

/-- `downloadOpenShiftClient() error`.  Oracles as in
`downloadKubernetes`; `extractErr` is the error returned by the invoked
extraction helper.  Mirrors the Go body, including the `default` branch
of both `switch` statements: the URL accumulation
`clientURL += fmt.Sprintf(clientURL+"-%s-%s.tar.gz", os, arch)` (which
duplicates the accumulated URL) and the call
`unzip(writeFileLocation+oc+".tar.gz", writeFileLocation+".")`. -/
def downloadOpenShiftClient (goos goarch : String) (onPath : String → Bool)
    (binDir : String) (dlErr : Option GoErr) (extractErr : Option GoErr) :
    OcResult :=
  if ¬ onPath "oc" then
    -- need to fix the version we download as not able to work out the oc sha
    let sha := "565691c"
    let latestVersion := "1.2.2"
    let clientURL := "https://github.com/openshift/origin/releases/download/v" ++
      latestVersion ++ "/openshift-origin-client-tools-v" ++ latestVersion ++
      "-" ++ sha
    let clientURL :=
      if goos = "windows" then clientURL ++ "-windows.zip"
      else if goos = "darwin" then clientURL ++ "-mac.zip"
      else clientURL ++ (clientURL ++ "-" ++ goos ++ "-" ++ goarch ++ ".tar.gz")
    match dlErr with
    | some e =>
      { ret := some e, url := some clientURL,
        downloadedTo := some (binDir ++ oc ++ ".zip"), extracted := none,
        alreadyOnPath := false }
    | none =>
      let ext :=
        if goos = "windows" then
          (Extractor.zipExtractor, binDir ++ oc ++ ".zip", binDir ++ ".")
        else if goos = "darwin" then
          (Extractor.zipExtractor, binDir ++ oc ++ ".zip", binDir ++ ".")
        else
          (Extractor.zipExtractor, binDir ++ oc ++ ".tar.gz", binDir ++ ".")
      match extractErr with
      | some e =>
        { ret := some e, url := some clientURL,
          downloadedTo := some (binDir ++ oc ++ ".zip"),
          extracted := some ext, alreadyOnPath := false }
      | none =>
        { ret := none, url := some clientURL,
          downloadedTo := some (binDir ++ oc ++ ".zip"),
          extracted := some ext, alreadyOnPath := false }
  else
    { ret := none, url := none, downloadedTo := none, extracted := none,
      alreadyOnPath := true }

/-! ### Filesystem model for the archive unpackers

Go string paths are modelled as lists of components, with
`filepath.Join` as list append.  The filesystem is the set of existing
directories plus the regular files with their content bytes and
permission mode.  Directory permission bits are not tracked (no claim
concerns them). -/

abbrev GoPath := List String

/-- One entry of a ZIP archive as `unzip` consumes it: its relative
name, whether `file.FileInfo().IsDir()`, its stored `file.Mode()`, and
its bytes.  The archive is given to `unzip` already parsed, so
`zip.OpenReader` and `file.Open` cannot fail in the model. -/
structure ZipEntry where
  name : GoPath
  isDir : Bool
  mode : Nat
  content : List Nat
deriving Repr, DecidableEq

structure FS where
  dirs : List GoPath
  files : List (GoPath × List Nat × Nat)
deriving Repr, DecidableEq

/-- Failure oracles for the filesystem operations whose errors the
claims exercise: whether `os.MkdirAll` fails at a given path and whether
`os.Chmod` fails at a given path. -/
structure FsEnv where
  mkdirFails : GoPath → Bool
  chmodFails : GoPath → Bool

/-- The environment in which every filesystem operation succeeds. -/
def noFailFs : FsEnv := ⟨fun _ => false, fun _ => false⟩

/-- The nonempty prefixes of a path: `os.MkdirAll` creates the directory
together with all missing parents. -/
def pathPrefixes (p : GoPath) : List GoPath :=
  (List.range p.length).map (fun i => p.take (i + 1))

/-- `os.MkdirAll`: record the directory and all its parents. -/
def FS.mkdirAll (fs : FS) (p : GoPath) : FS :=
  ⟨fs.dirs ++ pathPrefixes p, fs.files⟩

/-- Remove a file entry (the create-or-truncate step replaces it). -/
def removeFile : List (GoPath × List Nat × Nat) → GoPath →
    List (GoPath × List Nat × Nat)
  | [], _ => []
  | f :: rest, p =>
    if f.1 = p then removeFile rest p else f :: removeFile rest p

/-- `os.OpenFile(path, O_WRONLY|O_CREATE|O_TRUNC, mode)` (and
`os.Create`, with mode `0666`): fails when the parent directory does not
exist; otherwise creates or truncates the file with the given mode. -/
def FS.openCreate (fs : FS) (p : GoPath) (m : Nat) : Except GoErr FS :=
  if p.dropLast = [] ∨ p.dropLast ∈ fs.dirs then
    Except.ok ⟨fs.dirs, removeFile fs.files p ++ [(p, [], m)]⟩
  else
    Except.error GoErr.openFileErr

/-- `io.Copy` into an open file: set the file's content. -/
def FS.writeFile (fs : FS) (p : GoPath) (c : List Nat) : FS :=
  ⟨fs.dirs, fs.files.map (fun f => if f.1 = p then (f.1, c, f.2.2) else f)⟩

/-- `os.Chmod`: set the file's permission mode. -/
def FS.chmod (fs : FS) (p : GoPath) (m : Nat) : FS :=
  ⟨fs.dirs, fs.files.map (fun f => if f.1 = p then (f.1, f.2.1, m) else f)⟩

/-- The entry loop of `unzip`: for each entry, `filepath.Join(target,
file.Name)`; directory entries get `os.MkdirAll(path, file.Mode())`
whose error is discarded (`continue` follows regardless); file entries
are opened for create/truncate with the stored mode (error returned),
copied (the model gives the bytes, so the copy itself cannot fail), and
then `os.Chmod(path, 0755)` whose error is discarded — the stale `err`
re-checked afterwards is `nil`. -/
def unzipEntries (env : FsEnv) (target : GoPath) :
    List ZipEntry → FS → Except GoErr FS
  | [], fs => Except.ok fs
  | e :: es, fs =>
    let path := target ++ e.name
    if e.isDir then
      let fs1 := if env.mkdirFails path then fs else fs.mkdirAll path
      unzipEntries env target es fs1
    else
      match fs.openCreate path e.mode with
      | Except.error err => Except.error err
      | Except.ok fs1 =>
        let fs2 := fs1.writeFile path e.content
        let fs3 := if env.chmodFails path then fs2 else fs2.chmod path 0o755
        unzipEntries env target es fs3

/-- `unzip(archive, target string) error`: `os.MkdirAll(target, 0755)`
(this one checked: its error is returned), then the entry loop. -/
def unzip (env : FsEnv) (archive : List ZipEntry) (target : GoPath)
    (fs : FS) : Except GoErr FS :=
  if env.mkdirFails target then Except.error GoErr.mkdirErr
  else unzipEntries env target archive (fs.mkdirAll target)

/-- `ungzip(source, target string) error`: the gzip stream is given
parsed as its embedded `archive.Name` and decompressed bytes (so
`os.Open` and `gzip.NewReader` cannot fail in the model);
`target = filepath.Join(target, archive.Name)`; `os.Create` (mode 0666,
error returned), `io.Copy` (modelled as succeeding), then
`os.Chmod(target, 0755)` whose error is discarded — the function then
executes `return err` where `err` is the nil error of the copy. -/
def ungzip (env : FsEnv) (name : String) (content : List Nat)
    (target : GoPath) (fs : FS) : Except GoErr FS :=
  let tpath := target ++ [name]
  match fs.openCreate tpath createMode with
  | Except.error e => Except.error e
  | Except.ok fs1 =>
    let fs2 := fs1.writeFile tpath content
    let fs3 := if env.chmodFails tpath then fs2 else fs2.chmod tpath 0o755
    Except.ok fs3

/-! ### A packed directory tree (spec side of the round-trip claim)

A directory tree is represented by its relative directory paths and its
relative file paths with content and stored permission mode.  Packing it
into a ZIP lists the directory entries first (as archivers emit a
directory before the files inside it) and then the file entries. -/

structure DirTree where
  dirs : List GoPath
  files : List (GoPath × List Nat × Nat)
deriving Repr, DecidableEq

/-- Well-formedness of a directory tree: directory paths are nonempty,
every file sits at the root or in one of the tree's directories, and
file paths are distinct. -/
def DirTree.WF (t : DirTree) : Prop :=
  (∀ d ∈ t.dirs, d ≠ []) ∧
  (∀ f ∈ t.files, f.1 ≠ [] ∧ (f.1.dropLast = [] ∨ f.1.dropLast ∈ t.dirs)) ∧
  (t.files.map (fun f => f.1)).Nodup

/-- Pack a directory tree into a ZIP archive: directory entries first,
then file entries carrying their stored permission modes. -/
def pack (t : DirTree) : List ZipEntry :=
  t.dirs.map (fun d => ⟨d, true, 0o700, []⟩) ++
    t.files.map (fun f => ⟨f.1, false, f.2.2, f.2.1⟩)

/-! ### Version lookup and tag parsing (`getLatestVersionFromGitHub`)

Go strings are modelled here as `List Char` so that the parsing code of
the vendored `blang/semver` library (whose `semver.Make` the function
calls on `strings.TrimPrefix(tagName, "v")`) can be embedded character
by character.  `strconv.ParseUint`'s 64-bit range check is not modelled:
numeric components are unbounded naturals. -/

abbrev Chars := List Char

/-- Membership in blang/semver's `numbers = "0123456789"`. -/
def isNum (c : Char) : Bool := '0' ≤ c && c ≤ '9'

/-- Membership in blang/semver's `alphanum = alphas + numbers`, where
`alphas` is the latin letters plus the hyphen. -/
def isAlphaNum (c : Char) : Bool :=
  ('a' ≤ c && c ≤ 'z') || ('A' ≤ c && c ≤ 'Z') || isNum c || decide (c = '-')

def charVal (c : Char) : Nat := c.toNat - 48

/-- `strconv.ParseUint(s, 10, 64)` on an all-digit string. -/
def digitsVal (s : Chars) : Nat := s.foldl (fun a c => 10 * a + charVal c) 0

/-- blang/semver's `hasLeadingZeroes`: length above one and a leading
`'0'`. -/
def hasLeadingZeroes : Chars → Bool
  | c :: _ :: _ => decide (c = '0')
  | _ => false

/-- The checks blang/semver applies to each numeric component: only
digits, no leading zeroes, and `ParseUint` fails on the empty string. -/
def checkNumPart (s : Chars) : Except GoErr Nat :=
  if ¬ s.all isNum then Except.error GoErr.semverErr
  else if hasLeadingZeroes s then Except.error GoErr.semverErr
  else if s = [] then Except.error GoErr.semverErr
  else Except.ok (digitsVal s)

/-- Split at the first occurrence of a separator (`strings.SplitN` with
n = 2, and `strings.IndexRune` plus slicing). -/
def splitOnFirst (sep : Char) : Chars → Option (Chars × Chars)
  | [] => none
  | c :: cs =>
    if c = sep then some ([], cs)
    else
      match splitOnFirst sep cs with
      | none => none
      | some (l, r) => some (c :: l, r)

/-- `strings.Split`: split at every occurrence of the separator. -/
def splitAll (sep : Char) : Chars → List Chars
  | [] => [[]]
  | c :: cs =>
    if c = sep then [] :: splitAll sep cs
    else
      match splitAll sep cs with
      | [] => [[c]]
      | h :: t => (c :: h) :: t

/-- blang/semver's `PRVersion`: a numeric or an alphanumeric prerelease
identifier. -/
inductive PRVersion where
  | num (n : Nat)
  | str (s : Chars)
deriving Repr, DecidableEq

/-- blang/semver's `Version`. -/
structure SemVer where
  major : Nat
  minor : Nat
  patch : Nat
  pre : List PRVersion
  build : List Chars
deriving Repr, DecidableEq

/-- blang/semver's `NewPRVersion`. -/
def newPRVersion (s : Chars) : Except GoErr PRVersion :=
  if s = [] then Except.error GoErr.semverErr
  else if s.all isNum then
    if hasLeadingZeroes s then Except.error GoErr.semverErr
    else Except.ok (PRVersion.num (digitsVal s))
  else if s.all isAlphaNum then Except.ok (PRVersion.str s)
  else Except.error GoErr.semverErr

/-- The prerelease loop of blang/semver's `Parse`. -/
def parsePRList : List Chars → Except GoErr (List PRVersion)
  | [] => Except.ok []
  | s :: rest =>
    match newPRVersion s with
    | Except.error e => Except.error e
    | Except.ok pr =>
      match parsePRList rest with
      | Except.error e => Except.error e
      | Except.ok l => Except.ok (pr :: l)

/-- The build-metadata loop of blang/semver's `Parse`: each identifier
nonempty and alphanumeric, kept verbatim. -/
def checkBuildList : List Chars → Except GoErr (List Chars)
  | [] => Except.ok []
  | s :: rest =>
    if s = [] then Except.error GoErr.semverErr
    else if ¬ s.all isAlphaNum then Except.error GoErr.semverErr
    else
      match checkBuildList rest with
      | Except.error e => Except.error e
      | Except.ok l => Except.ok (s :: l)

/-- Tail of blang/semver's `Parse` after the patch section has been cut
at `'+'` (build metadata) and `'-'` (prerelease): check the patch
number, parse the prerelease identifiers, check the build identifiers. -/
def semverCore (major minor : Nat) (patchStr : Chars)
    (preStrs : Option (List Chars)) (buildStrs : Option (List Chars)) :
    Except GoErr SemVer :=
  match checkNumPart patchStr with
  | Except.error e => Except.error e
  | Except.ok patch =>
    match (match preStrs with
           | none => Except.ok []
           | some l => parsePRList l) with
    | Except.error e => Except.error e
    | Except.ok pre =>
      match (match buildStrs with
             | none => Except.ok []
             | some l => checkBuildList l) with
      | Except.error e => Except.error e
      | Except.ok build => Except.ok ⟨major, minor, patch, pre, build⟩

/-- Cut the prerelease part at the first `'-'` of the remaining patch
section. -/
def semverFinish (major minor : Nat) (patchPre : Chars)
    (buildStrs : Option (List Chars)) : Except GoErr SemVer :=
  match splitOnFirst '-' patchPre with
  | none => semverCore major minor patchPre none buildStrs
  | some (ps, pr) =>
    semverCore major minor ps (some (splitAll '.' pr)) buildStrs

/-- blang/semver's `Make` (= `Parse`): nonempty, split into
`major.minor.rest` on the first two dots, check major and minor, cut the
build metadata at the first `'+'`, then continue with `semverFinish`. -/
def semverMake (s : Chars) : Except GoErr SemVer :=
  if s = [] then Except.error GoErr.semverErr
  else
    match splitOnFirst '.' s with
    | none => Except.error GoErr.semverErr
    | some (majorStr, rest1) =>
      match splitOnFirst '.' rest1 with
      | none => Except.error GoErr.semverErr
      | some (minorStr, rest2) =>
        match checkNumPart majorStr with
        | Except.error e => Except.error e
        | Except.ok major =>
          match checkNumPart minorStr with
          | Except.error e => Except.error e
          | Except.ok minor =>
            match splitOnFirst '+' rest2 with
            | none => semverFinish major minor rest2 none
            | some (pb, bd) =>
              semverFinish major minor pb (some (splitAll '.' bd))

/-- Decimal rendering of a digit (the inverse of `charVal` on digits). -/
def digitChar : Nat → Char
  | 0 => '0' | 1 => '1' | 2 => '2' | 3 => '3' | 4 => '4'
  | 5 => '5' | 6 => '6' | 7 => '7' | 8 => '8' | 9 => '9'
  | _ => '*'

/-- Decimal rendering of a natural number (`strconv.AppendUint`). -/
def natToChars (n : Nat) : Chars :=
  if n = 0 then ['0'] else ((Nat.digits 10 n).map digitChar).reverse

/-- `strings.Join` with a one-character separator. -/
def joinSep (sep : Char) : List Chars → Chars
  | [] => []
  | [x] => x
  | x :: xs => x ++ sep :: joinSep sep xs

def prRender : PRVersion → Chars
  | PRVersion.num n => natToChars n
  | PRVersion.str s => s

/-- blang/semver's `Version.String()`. -/
def semverRender (v : SemVer) : Chars :=
  natToChars v.major ++ ('.' :: natToChars v.minor) ++
    ('.' :: natToChars v.patch) ++
    (if v.pre = [] then [] else '-' :: joinSep '.' (v.pre.map prRender)) ++
    (if v.build = [] then [] else '+' :: joinSep '.' v.build)

/-- `strings.TrimPrefix`. -/
def goTrimPre (p s : Chars) : Chars :=
  if p <+: s then s.drop p.length else s

/-- Lines 358–363 of install.go: a nil `TagName` is the "Cannot get
release name" error; otherwise `semver.Make(strings.TrimPrefix(*tagName,
"v"))`. -/
def parseReleaseTag : Option Chars → Except GoErr SemVer
  | some tag => semverMake (goTrimPre ['v'] tag)
  | none => Except.error GoErr.noReleaseName

/-- `getLatestVersionFromGitHub(githubOwner, githubRepo)`: the GitHub
client call is an oracle giving either the request error or the optional
tag name of the latest release. -/
def getLatestVersionFromGitHub (fetch : Except GoErr (Option Chars)) :
    Except GoErr SemVer :=
  match fetch with
  | Except.error e => Except.error e
  | Except.ok tagName => parseReleaseTag tagName

/-- The fixed base URL `downloadOpenShiftClient` starts from:
`fmt.Sprintf("https://github.com/openshift/origin/releases/download/v%s/openshift-origin-client-tools-v%s-%s", "1.2.2", "1.2.2", "565691c")`. -/
def ocToolsBaseURL : String :=
  "https://github.com/openshift/origin/releases/download/v1.2.2/openshift-origin-client-tools-v1.2.2-565691c"

end Gofabric8

namespace Gofabric8

/-! ### Helper lemmas about the filesystem model -/

theorem removeFile_of_not_mem (l : List (GoPath × List Nat × Nat))
    (p : GoPath) (h : p ∉ l.map (fun f => f.1)) : removeFile l p = l := by
  induction l with
  | nil => rfl
  | cons f rest ih =>
    simp only [List.map_cons, List.mem_cons] at h
    push_neg at h
    rw [removeFile, if_neg (fun hf => h.1 hf.symm), ih h.2]

theorem mapOn_of_not_mem (l : List (GoPath × List Nat × Nat)) (p : GoPath)
    (g : GoPath × List Nat × Nat → GoPath × List Nat × Nat)
    (h : p ∉ l.map (fun f => f.1)) :
    (l.map fun f => if f.1 = p then g f else f) = l := by
  induction l with
  | nil => rfl
  | cons f rest ih =>
    simp only [List.map_cons, List.mem_cons] at h
    push_neg at h
    rw [List.map_cons, if_neg (fun hf : f.1 = p => h.1 hf.symm), ih h.2]

theorem mem_pathPrefixes_self (p : GoPath) (h : p ≠ []) :
    p ∈ pathPrefixes p := by
  have hl : 0 < p.length := List.length_pos.mpr h
  refine List.mem_map.mpr ⟨p.length - 1, List.mem_range.mpr (by omega), ?_⟩
  rw [Nat.sub_add_cancel hl, List.take_length]

/-- The create-truncate-copy-chmod sequence `unzip` performs on one
fresh file entry, in one step. -/
theorem fileStep (fs : FS) (p : GoPath) (c : List Nat) (m : Nat)
    (hp : p.dropLast = [] ∨ p.dropLast ∈ fs.dirs)
    (hfresh : p ∉ fs.files.map (fun f => f.1)) :
    fs.openCreate p m = Except.ok ⟨fs.dirs, fs.files ++ [(p, [], m)]⟩ ∧
    ((⟨fs.dirs, fs.files ++ [(p, [], m)]⟩ : FS).writeFile p c).chmod p 0o755 =
      ⟨fs.dirs, fs.files ++ [(p, c, 0o755)]⟩ := by
  constructor
  · rw [FS.openCreate, if_pos hp, removeFile_of_not_mem _ _ hfresh]
  · simp only [FS.writeFile, FS.chmod, List.map_append,
      mapOn_of_not_mem _ _ _ hfresh, List.map_cons, List.map_nil, if_pos rfl]
    have h2 : (p, c, m).1 = p := rfl
    simp

/-- Processing the directory entries of a packed tree just creates the
directories (with their parents). -/
def foldMkdir (target : GoPath) (ds : List GoPath) (fs : FS) : FS :=
  ds.foldl (fun a d => a.mkdirAll (target ++ d)) fs

theorem foldMkdir_files (target : GoPath) (ds : List GoPath) :
    ∀ fs : FS, (foldMkdir target ds fs).files = fs.files := by
  induction ds with
  | nil => intro fs; rfl
  | cons d rest ih => intro fs; exact ih (fs.mkdirAll (target ++ d))

theorem foldMkdir_dirs_mono (target : GoPath) (ds : List GoPath) :
    ∀ fs : FS, ∀ q ∈ fs.dirs, q ∈ (foldMkdir target ds fs).dirs := by
  induction ds with
  | nil => intro fs q hq; exact hq
  | cons d rest ih =>
    intro fs q hq
    exact ih (fs.mkdirAll (target ++ d)) q (by
      simp [FS.mkdirAll, List.mem_append]; exact Or.inl hq)

theorem foldMkdir_covers (target : GoPath) (ds : List GoPath) :
    ∀ fs : FS, ∀ d ∈ ds, d ≠ [] →
      (target ++ d) ∈ (foldMkdir target ds fs).dirs := by
  induction ds with
  | nil => intro fs d hd; exact absurd hd (List.not_mem_nil d)
  | cons d0 rest ih =>
    intro fs d hd hne
    rcases List.mem_cons.mp hd with h | h
    · subst h
      refine foldMkdir_dirs_mono target rest _ _ ?_
      simp only [FS.mkdirAll, List.mem_append]
      exact Or.inr (mem_pathPrefixes_self _ (by simp [hne]))
    · exact ih _ d h hne

theorem unzipEntries_dirPhase (target : GoPath) (ds : List GoPath)
    (rest : List ZipEntry) :
    ∀ fs : FS,
      unzipEntries noFailFs target
        (ds.map (fun d => ⟨d, true, 0o700, []⟩) ++ rest) fs =
      unzipEntries noFailFs target rest (foldMkdir target ds fs) := by
  induction ds with
  | nil => intro fs; rfl
  | cons d rest' ih =>
    intro fs
    simp only [List.map_cons, List.cons_append, unzipEntries, noFailFs]
    exact ih (fs.mkdirAll (target ++ d))

theorem unzipEntries_filePhase (target : GoPath)
    (gs : List (GoPath × List Nat × Nat)) :
    ∀ fs : FS,
    (∀ g ∈ gs, (target ++ g.1).dropLast = [] ∨
      (target ++ g.1).dropLast ∈ fs.dirs) →
    ((gs.map (fun g => target ++ g.1)).Nodup) →
    (∀ g ∈ gs, (target ++ g.1) ∉ fs.files.map (fun f => f.1)) →
    unzipEntries noFailFs target
        (gs.map (fun g => ⟨g.1, false, g.2.2, g.2.1⟩)) fs =
      Except.ok ⟨fs.dirs, fs.files ++
        gs.map (fun g => (target ++ g.1, g.2.1, 0o755))⟩ := by
  induction gs with
  | nil => intro fs _ _ _; simp [unzipEntries]
  | cons g rest ih =>
    intro fs h1 h2 h3
    have hp := h1 g (List.mem_cons_self g rest)
    have hfresh := h3 g (List.mem_cons_self g rest)
    obtain ⟨hopen, hwrite⟩ := fileStep fs (target ++ g.1) g.2.1 g.2.2 hp hfresh
    have hkey : (target ++ g.1) ∉ rest.map (fun g => target ++ g.1) :=
      (List.nodup_cons.mp h2).1
    have hstep : unzipEntries noFailFs target
        ((g :: rest).map (fun g => ⟨g.1, false, g.2.2, g.2.1⟩)) fs =
        unzipEntries noFailFs target
          (rest.map (fun g => ⟨g.1, false, g.2.2, g.2.1⟩))
          ⟨fs.dirs, fs.files ++ [(target ++ g.1, g.2.1, 0o755)]⟩ := by
      simp [unzipEntries, hopen, hwrite, noFailFs]
    rw [hstep, ih ⟨fs.dirs, fs.files ++ [(target ++ g.1, g.2.1, 0o755)]⟩
      (fun g' hg' => h1 g' (List.mem_cons_of_mem g hg'))
      (List.nodup_cons.mp h2).2 (fun g' hg' => ?_)]
    · simp
    · simp only [List.map_append, List.map_cons, List.map_nil,
        List.mem_append, List.mem_singleton]
      push_neg
      refine ⟨h3 g' (List.mem_cons_of_mem g hg'), fun he => ?_⟩
      exact hkey (he ▸ List.mem_map.mpr ⟨g', hg', rfl⟩)

/-! ### Helper lemmas for the semantic-version round trip -/

theorem charToNat_inj (a b : Char) (h : a.toNat = b.toNat) : a = b :=
  Char.ext (UInt32.ext h)

theorem isNum_bounds (c : Char) (h : isNum c = true) :
    48 ≤ c.toNat ∧ c.toNat ≤ 57 := by
  simp only [isNum, Bool.and_eq_true, decide_eq_true_eq] at h
  exact ⟨h.1, h.2⟩

theorem digitChar_charVal (c : Char) (h : isNum c = true) :
    digitChar (charVal c) = c := by
  obtain ⟨h1, h2⟩ := isNum_bounds c h
  have h10 : c.toNat = 48 ∨ c.toNat = 49 ∨ c.toNat = 50 ∨ c.toNat = 51 ∨
      c.toNat = 52 ∨ c.toNat = 53 ∨ c.toNat = 54 ∨ c.toNat = 55 ∨
      c.toNat = 56 ∨ c.toNat = 57 := by omega
  rcases h10 with h'|h'|h'|h'|h'|h'|h'|h'|h'|h'
  · rw [charToNat_inj c '0' h']; decide
  · rw [charToNat_inj c '1' h']; decide
  · rw [charToNat_inj c '2' h']; decide
  · rw [charToNat_inj c '3' h']; decide
  · rw [charToNat_inj c '4' h']; decide
  · rw [charToNat_inj c '5' h']; decide
  · rw [charToNat_inj c '6' h']; decide
  · rw [charToNat_inj c '7' h']; decide
  · rw [charToNat_inj c '8' h']; decide
  · rw [charToNat_inj c '9' h']; decide

theorem charVal_lt_ten (c : Char) (h : isNum c = true) : charVal c < 10 := by
  obtain ⟨h1, h2⟩ := isNum_bounds c h
  unfold charVal
  omega

theorem charVal_ne_zero (c : Char) (h : isNum c = true) (hc : c ≠ '0') :
    charVal c ≠ 0 := by
  obtain ⟨h1, h2⟩ := isNum_bounds c h
  have : c.toNat ≠ 48 := fun he => hc (charToNat_inj c '0' he)
  unfold charVal
  omega

theorem digitsVal_eq_ofDigits_aux (s : Chars) :
    ∀ a : Nat, s.foldl (fun a c => 10 * a + charVal c) a =
      Nat.ofDigits 10 ((s.map charVal).reverse) + a * 10 ^ s.length := by
  induction s with
  | nil => intro a; simp
  | cons c cs ih =>
    intro a
    simp only [List.foldl_cons, List.map_cons, List.reverse_cons,
      List.length_cons]
    rw [ih (10 * a + charVal c), Nat.ofDigits_append]
    simp only [Nat.ofDigits_cons, Nat.ofDigits_nil, List.length_reverse,
      List.length_map]
    ring

theorem digitsVal_eq (s : Chars) :
    digitsVal s = Nat.ofDigits 10 ((s.map charVal).reverse) := by
  have h := digitsVal_eq_ofDigits_aux s 0
  simpa [digitsVal] using h

theorem natToChars_digitsVal (s : Chars) (hall : s.all isNum = true)
    (hlz : hasLeadingZeroes s = false) (hne : s ≠ []) :
    natToChars (digitsVal s) = s := by
  have hallm : ∀ c ∈ s, isNum c = true := by
    intro c hc
    exact List.all_eq_true.mp hall c hc
  rcases s with _ | ⟨c, cs⟩
  · exact absurd rfl hne
  by_cases hzero : c = '0' ∧ cs = []
  · obtain ⟨hc0, hcs⟩ := hzero
    subst hc0
    subst hcs
    rfl
  · have hcne : c ≠ '0' := by
      rcases cs with _ | ⟨c', cs'⟩
      · intro hc0
        exact hzero ⟨hc0, rfl⟩
      · intro hc0
        subst hc0
        simp [hasLeadingZeroes] at hlz
    have hL10 : ∀ d ∈ ((c :: cs).map charVal).reverse, d < 10 := by
      intro d hd
      rw [List.mem_reverse, List.mem_map] at hd
      obtain ⟨c', hc', rfl⟩ := hd
      exact charVal_lt_ten c' (hallm c' hc')
    have hrevne : ((c :: cs).map charVal).reverse ≠ [] := by simp
    have hlast : ∀ (h : ((c :: cs).map charVal).reverse ≠ []),
        (((c :: cs).map charVal).reverse).getLast h ≠ 0 := by
      intro h
      rw [List.getLast_reverse]
      simp only [List.map_cons, List.head_cons]
      exact charVal_ne_zero c (hallm c (List.mem_cons_self c cs)) hcne
    have hdig : Nat.digits 10 (digitsVal (c :: cs)) =
        ((c :: cs).map charVal).reverse := by
      rw [digitsVal_eq]
      exact Nat.digits_ofDigits 10 (by norm_num) _ hL10 hlast
    have hnz : digitsVal (c :: cs) ≠ 0 := by
      intro h0
      rw [h0] at hdig
      simp only [Nat.digits_zero] at hdig
      exact hrevne hdig.symm
    rw [natToChars, if_neg hnz, hdig, List.map_reverse, List.reverse_reverse,
      List.map_map]
    have : ∀ c' ∈ c :: cs, (digitChar ∘ charVal) c' = id c' := by
      intro c' hc'
      exact digitChar_charVal c' (hallm c' hc')
    rw [List.map_congr_left this, List.map_id]

theorem checkNumPart_ok (s : Chars) (n : Nat)
    (h : checkNumPart s = Except.ok n) : natToChars n = s := by
  unfold checkNumPart at h
  split_ifs at h with h1 h2 h3
  rw [Except.ok.injEq] at h
  subst h
  refine natToChars_digitsVal s ?_ ?_ h3
  · exact h1
  · simpa using h2

theorem newPRVersion_ok (s : Chars) (pr : PRVersion)
    (h : newPRVersion s = Except.ok pr) : prRender pr = s := by
  unfold newPRVersion at h
  split_ifs at h with h1 h2 h3 h4
  · rw [Except.ok.injEq] at h
    subst h
    exact natToChars_digitsVal s h2 (by simpa using h3) h1
  · rw [Except.ok.injEq] at h
    subst h
    rfl

theorem parsePRList_ok (ls : List Chars) : ∀ prs : List PRVersion,
    parsePRList ls = Except.ok prs → prs.map prRender = ls := by
  induction ls with
  | nil =>
    intro prs h
    rw [parsePRList, Except.ok.injEq] at h
    subst h
    rfl
  | cons s rest ih =>
    intro prs h
    rw [parsePRList] at h
    cases hn : newPRVersion s with
    | error e => rw [hn] at h; cases h
    | ok pr =>
      rw [hn] at h
      cases hr : parsePRList rest with
      | error e => rw [hr] at h; cases h
      | ok l =>
        rw [hr, Except.ok.injEq] at h
        subst h
        simp only [List.map_cons]
        rw [newPRVersion_ok s pr hn, ih l hr]

theorem checkBuildList_ok (ls : List Chars) : ∀ bs : List Chars,
    checkBuildList ls = Except.ok bs → bs = ls := by
  induction ls with
  | nil =>
    intro bs h
    rw [checkBuildList, Except.ok.injEq] at h
    exact h.symm
  | cons s rest ih =>
    intro bs h
    rw [checkBuildList] at h
    split_ifs at h
    cases hr : checkBuildList rest with
    | error e => rw [hr] at h; cases h
    | ok l =>
      rw [hr, Except.ok.injEq] at h
      subst h
      rw [ih l hr]

theorem splitOnFirst_eq (sep : Char) : ∀ s l r : Chars,
    splitOnFirst sep s = some (l, r) → s = l ++ sep :: r := by
  intro s
  induction s with
  | nil => intro l r h; cases h
  | cons c cs ih =>
    intro l r h
    rw [splitOnFirst] at h
    by_cases hc : c = sep
    · rw [if_pos hc, Option.some.injEq, Prod.mk.injEq] at h
      obtain ⟨hl, hr⟩ := h
      subst hl
      subst hr
      rw [hc]
      rfl
    · rw [if_neg hc] at h
      cases hsp : splitOnFirst sep cs with
      | none => rw [hsp] at h; cases h
      | some p =>
        obtain ⟨l', r'⟩ := p
        rw [hsp, Option.some.injEq, Prod.mk.injEq] at h
        obtain ⟨hl, hr⟩ := h
        subst hl
        subst hr
        rw [List.cons_append]
        rw [ih l' r' hsp]

theorem splitAll_ne_nil (sep : Char) : ∀ s : Chars, splitAll sep s ≠ [] := by
  intro s
  induction s with
  | nil => simp [splitAll]
  | cons c cs ih =>
    rw [splitAll]
    by_cases hc : c = sep
    · rw [if_pos hc]
      simp
    · rw [if_neg hc]
      cases hs : splitAll sep cs with
      | nil => simp
      | cons h' t' => simp

theorem joinSep_splitAll (sep : Char) : ∀ s : Chars,
    joinSep sep (splitAll sep s) = s := by
  intro s
  induction s with
  | nil => rfl
  | cons c cs ih =>
    rw [splitAll]
    by_cases hc : c = sep
    · rw [if_pos hc]
      cases hs : splitAll sep cs with
      | nil => exact absurd hs (splitAll_ne_nil sep cs)
      | cons h' t' =>
        rw [hs] at ih
        rw [joinSep, List.nil_append, ih, hc]
        simp
    · rw [if_neg hc]
      cases hs : splitAll sep cs with
      | nil => exact absurd hs (splitAll_ne_nil sep cs)
      | cons h' t' =>
        rw [hs] at ih
        cases t' with
        | nil =>
          rw [joinSep] at ih
          rw [joinSep, ih]
        | cons x xs =>
          rw [joinSep] at ih
          · rw [joinSep, List.cons_append, ih]
            all_goals simp
          · simp

theorem parsePre_ok (o : Option (List Chars)) (prs : List PRVersion)
    (h : (match o with
          | none => Except.ok []
          | some l => parsePRList l) = Except.ok prs) :
    (o = none → prs = []) ∧
    (∀ ls, o = some ls → prs.map prRender = ls) := by
  cases o with
  | none =>
    simp only [Except.ok.injEq] at h
    subst h
    exact ⟨fun _ => rfl, fun ls hls => Option.noConfusion hls⟩
  | some l =>
    refine ⟨fun hn => Option.noConfusion hn, fun ls hls => ?_⟩
    rw [Option.some.injEq] at hls
    subst hls
    exact parsePRList_ok l prs h

theorem checkBuild_ok (o : Option (List Chars)) (bs : List Chars)
    (h : (match o with
          | none => Except.ok []
          | some l => checkBuildList l) = Except.ok bs) :
    (o = none → bs = []) ∧ (∀ ls, o = some ls → bs = ls) := by
  cases o with
  | none =>
    simp only [Except.ok.injEq] at h
    subst h
    exact ⟨fun _ => rfl, fun ls hls => Option.noConfusion hls⟩
  | some l =>
    refine ⟨fun hn => Option.noConfusion hn, fun ls hls => ?_⟩
    rw [Option.some.injEq] at hls
    subst hls
    exact checkBuildList_ok l bs h

theorem semverCore_ok (M N : Nat) (ps : Chars)
    (pres builds : Option (List Chars)) (v : SemVer)
    (h : semverCore M N ps pres builds = Except.ok v) :
    v.major = M ∧ v.minor = N ∧ natToChars v.patch = ps ∧
    (pres = none → v.pre = []) ∧
    (∀ ls, pres = some ls → v.pre.map prRender = ls) ∧
    (builds = none → v.build = []) ∧
    (∀ ls, builds = some ls → v.build = ls) := by
  unfold semverCore at h
  cases hp : checkNumPart ps with
  | error e => rw [hp] at h; cases h
  | ok patch =>
    rw [hp] at h
    cases hpre : (match pres with
                  | none => Except.ok []
                  | some l => parsePRList l) with
    | error e => rw [hpre] at h; cases h
    | ok pre =>
      rw [hpre] at h
      cases hbld : (match builds with
                    | none => Except.ok []
                    | some l => checkBuildList l) with
      | error e => rw [hbld] at h; cases h
      | ok build =>
        rw [hbld, Except.ok.injEq] at h
        subst h
        obtain ⟨hp1, hp2⟩ := parsePre_ok pres pre hpre
        obtain ⟨hb1, hb2⟩ := checkBuild_ok builds build hbld
        exact ⟨rfl, rfl, checkNumPart_ok ps patch hp, hp1, hp2, hb1, hb2⟩

theorem semverFinish_ok (M N : Nat) (pp : Chars)
    (builds : Option (List Chars)) (v : SemVer)
    (h : semverFinish M N pp builds = Except.ok v) :
    v.major = M ∧ v.minor = N ∧
    (natToChars v.patch ++
      (if v.pre = [] then []
       else '-' :: joinSep '.' (v.pre.map prRender))) = pp ∧
    (builds = none → v.build = []) ∧
    (∀ ls, builds = some ls → v.build = ls) := by
  unfold semverFinish at h
  cases hsp : splitOnFirst '-' pp with
  | none =>
    rw [hsp] at h
    obtain ⟨h1, h2, h3, h4, _h5, h6, h7⟩ := semverCore_ok M N pp none builds v h
    refine ⟨h1, h2, ?_, h6, h7⟩
    rw [h4 rfl]
    simp [h3]
  | some p =>
    obtain ⟨ps, pr⟩ := p
    rw [hsp] at h
    obtain ⟨h1, h2, h3, _h4, h5, h6, h7⟩ :=
      semverCore_ok M N ps (some (splitAll '.' pr)) builds v h
    have hmap : v.pre.map prRender = splitAll '.' pr := h5 _ rfl
    have hpre_ne : v.pre ≠ [] := by
      intro h0
      rw [h0] at hmap
      exact splitAll_ne_nil '.' pr hmap.symm
    refine ⟨h1, h2, ?_, h6, h7⟩
    rw [if_neg hpre_ne, hmap, joinSep_splitAll '.' pr, h3]
    exact (splitOnFirst_eq '-' pp ps pr hsp).symm

theorem semverMake_render (s : Chars) (v : SemVer)
    (h : semverMake s = Except.ok v) : semverRender v = s := by
  have hgrp : semverRender v =
      natToChars v.major ++ ('.' :: (natToChars v.minor ++ ('.' ::
        ((natToChars v.patch ++
          (if v.pre = [] then []
           else '-' :: joinSep '.' (v.pre.map prRender))) ++
         (if v.build = [] then []
          else '+' :: joinSep '.' v.build))))) := by
    simp [semverRender, List.append_assoc]
  unfold semverMake at h
  by_cases hs : s = []
  · rw [if_pos hs] at h; cases h
  · rw [if_neg hs] at h
    split at h
    · cases h
    next majorStr rest1 hsp1 =>
      split at h
      · cases h
      next minorStr rest2 hsp2 =>
        split at h
        · cases h
        next M hM =>
          split at h
          · cases h
          next N hN =>
            have hs1 := splitOnFirst_eq '.' s majorStr rest1 hsp1
            have hs2 := splitOnFirst_eq '.' rest1 minorStr rest2 hsp2
            have hMs := checkNumPart_ok majorStr M hM
            have hNs := checkNumPart_ok minorStr N hN
            split at h
            next hsp3 =>
              obtain ⟨h1, h2, h3, h4, _h5⟩ :=
                semverFinish_ok M N rest2 none v h
              rw [hgrp, h1, h2, hMs, hNs, h3, h4 rfl, hs1, hs2]
              simp
            next pb bd hsp3 =>
              obtain ⟨h1, h2, h3, _h4, h5⟩ :=
                semverFinish_ok M N pb (some (splitAll '.' bd)) v h
              have hbd : v.build = splitAll '.' bd := h5 _ rfl
              have hbne : v.build ≠ [] := by
                intro h0
                rw [h0] at hbd
                exact splitAll_ne_nil '.' bd hbd.symm
              have hrest2 := splitOnFirst_eq '+' rest2 pb bd hsp3
              rw [hgrp, h1, h2, hMs, hNs, h3, if_neg hbne, hbd,
                joinSep_splitAll '.' bd, hs1, hs2, hrest2]

/-!  ## Claims -/

/-- C4: for both values of the boolean mode flag, `getDownloadProperties`
is total and returns a `downloadProperties` whose `isMiniShift` flag
equals the requested mode, with the other fields drawn entirely from the
minishift set (oc / minishift / jimmidyson / minishift / "download/" /
the minishift host) in secondary mode and the minikube set (kubectl /
minikube / kubernetes / minikube / empty extra path / the generic release
storage host) in primary mode, with no cross-contamination. -/
theorem getDownloadProperties_fixed_sets :
    (∀ b : Bool, (getDownloadProperties b).isMiniShift = b) ∧
    getDownloadProperties true =
      { clientBinary := "oc", kubeDistroOrg := "jimmidyson",
        kubeDistroRepo := "minishift", kubeBinary := "minishift",
        extraPath := "download/",
        downloadURL := "https://github.com/jimmidyson/",
        isMiniShift := true } ∧
    getDownloadProperties false =
      { clientBinary := "kubectl", kubeDistroOrg := "kubernetes",
        kubeDistroRepo := "minikube", kubeBinary := "minikube",
        extraPath := "",
        downloadURL := "https://storage.googleapis.com/",
        isMiniShift := false } := by
  refine ⟨fun b => ?_, by decide, by decide⟩
  cases b <;> rfl

/-- C5: with a resolvable home directory, `isInstalled` returns `false`
whenever the Kubernetes config file is absent, independent of every other
condition; and it returns `true` only when the config file exists,
`kubectl` resolves on the search path, and the mode-appropriate binaries
resolve (`minishift` and `oc` in secondary mode, `minikube` in primary
mode). -/
theorem isInstalled_config_and_path (home : String) (configAbsent : Bool)
    (onPath : String → Bool) (m : Bool) (hh : home ≠ "") :
    (configAbsent = true → isInstalled home configAbsent onPath m = some false) ∧
    (isInstalled home configAbsent onPath m = some true →
      configAbsent = false ∧ onPath kubectl = true ∧
      (if m then onPath minishift = true ∧ onPath oc = true
       else onPath minikube = true)) := by
  cases hc : configAbsent <;> cases hm : m <;>
    cases h1 : onPath kubectl <;> cases h2 : onPath minishift <;>
    cases h3 : onPath oc <;> cases h4 : onPath minikube <;>
    simp_all [isInstalled]

/-- C5 witness: `isInstalled_config_and_path` applied at a concrete
environment (home resolvable, config present, everything on the path,
secondary mode). -/
theorem isInstalled_config_and_path_witness :
    (false = true → isInstalled "/home/u" false (fun _ => true) true = some false) ∧
    (isInstalled "/home/u" false (fun _ => true) true = some true →
      false = false ∧ (fun _ : String => true) kubectl = true ∧
      (if true then (fun _ : String => true) minishift = true ∧
            (fun _ : String => true) oc = true
       else (fun _ : String => true) minikube = true)) :=
  isInstalled_config_and_path "/home/u" false (fun _ => true) true (by decide)

/-- C2 counterexample: with the minishift mode requested and
`os.MkdirAll` of the install directory failing, every later installation
step (driver install, distro download, CLI client download, OpenShift
client download) is still executed — the claim that none of them runs is
false at this input. -/
theorem install_mkdirFailure_steps_still_run :
    InstallStep.driver ∈ install true true ∧
    InstallStep.kubernetesDistro ∈ install true true ∧
    InstallStep.kubectlClient ∈ install true true ∧
    InstallStep.openShiftClient ∈ install true true := by decide

/-- C2 amended: failure of `os.MkdirAll` for the install directory is
logged via `util.Errorf` but is not terminating — the orchestrator runs
exactly the same step sequence as on success, so the driver, distro and
client steps always execute and the OpenShift client step executes
exactly in minishift mode. -/
theorem install_mkdirFailure_continues (m f : Bool) :
    install m f = install m false ∧
    InstallStep.driver ∈ install m f ∧
    InstallStep.kubernetesDistro ∈ install m f ∧
    InstallStep.kubectlClient ∈ install m f ∧
    (InstallStep.openShiftClient ∈ install m f ↔ m = true) := by
  cases m <;> cases f <;> decide

/-- C7 counterexample: when file creation, the HTTP GET and the body copy
all succeed but the subsequent `os.Chmod` fails, `downloadFile` still
returns `nil` while the destination file keeps its creation mode `0666`
— its permission bits are not set to `0755`, so the claim as stated is
false at this input. -/
theorem downloadFile_chmodFailure_counterexample :
    (downloadFile ⟨false, Except.ok ⟨200, [1, 2, 3]⟩, false, 0, true⟩).ret = none ∧
    (downloadFile ⟨false, Except.ok ⟨200, [1, 2, 3]⟩, false, 0, true⟩).file =
      some ⟨[1, 2, 3], createMode⟩ ∧
    createMode ≠ 0o755 := by decide

/-- C7 amended: a failure at destination-file creation, at the HTTP GET,
or at the body copy aborts `downloadFile` and returns that underlying
error without removing any partially written destination file; when all
three succeed, `nil` is returned and a chmod to `0755` is issued whose
own failure is ignored — the destination's bits become `0755` exactly
when that chmod succeeds, and stay at the creation mode otherwise. -/
theorem downloadFile_aborts_or_chmods (env : FetchEnv) :
    (env.createFails = true →
      downloadFile env = ⟨some GoErr.createErr, none⟩) ∧
    (∀ e, env.createFails = false → env.getResult = Except.error e →
      downloadFile env = ⟨some e, some ⟨[], createMode⟩⟩) ∧
    (∀ resp, env.createFails = false → env.getResult = Except.ok resp →
      env.copyFails = true →
      downloadFile env =
        ⟨some GoErr.copyErr, some ⟨resp.body.take env.partialLen, createMode⟩⟩) ∧
    (∀ resp, env.createFails = false → env.getResult = Except.ok resp →
      env.copyFails = false →
      (downloadFile env).ret = none ∧
      (downloadFile env).file =
        some ⟨resp.body, if env.chmodFails then createMode else 0o755⟩) := by
  obtain ⟨cf, gr, cpf, pl, chf⟩ := env
  refine ⟨fun h => ?_, fun e h1 h2 => ?_, fun resp h1 h2 h3 => ?_,
    fun resp h1 h2 h3 => ?_⟩
  all_goals cases chf <;> simp_all [downloadFile]

/-- C7 witness: `downloadFile_aborts_or_chmods` at a concrete
environment where creation, GET and copy succeed and the chmod succeeds
too. -/
theorem downloadFile_aborts_or_chmods_witness :
    (downloadFile ⟨false, Except.ok ⟨200, [7]⟩, false, 0, false⟩).ret = none ∧
    (downloadFile ⟨false, Except.ok ⟨200, [7]⟩, false, 0, false⟩).file =
      some ⟨[7], 0o755⟩ :=
  (downloadFile_aborts_or_chmods
    ⟨false, Except.ok ⟨200, [7]⟩, false, 0, false⟩).2.2.2 ⟨200, [7]⟩ rfl rfl rfl

/-- C10: `downloadFile` never inspects the HTTP status code — its result
is identical for any two statuses with the same body — and for a GET
completing with status 404 (other local operations succeeding) it still
returns `nil`, writes the response body to the destination file, and
marks the file executable (mode `0755`). -/
theorem downloadFile_ignores_httpStatus (env : FetchEnv) :
    (∀ s₁ s₂ body,
      downloadFile ⟨env.createFails, Except.ok ⟨s₁, body⟩, env.copyFails,
        env.partialLen, env.chmodFails⟩ =
      downloadFile ⟨env.createFails, Except.ok ⟨s₂, body⟩, env.copyFails,
        env.partialLen, env.chmodFails⟩) ∧
    (∀ body, env.createFails = false → env.copyFails = false →
      env.chmodFails = false → env.getResult = Except.ok ⟨404, body⟩ →
      (downloadFile env).ret = none ∧
      (downloadFile env).file = some ⟨body, 0o755⟩) := by
  obtain ⟨cf, gr, cpf, pl, chf⟩ := env
  refine ⟨fun s₁ s₂ body => ?_, fun body h1 h2 h3 h4 => ?_⟩
  all_goals simp_all [downloadFile]

/-- C10 witness: `downloadFile_ignores_httpStatus` at a concrete
environment whose GET completes with status 404. -/
theorem downloadFile_ignores_httpStatus_witness :
    (downloadFile ⟨false, Except.ok ⟨404, [9, 9]⟩, false, 0, false⟩).ret = none ∧
    (downloadFile ⟨false, Except.ok ⟨404, [9, 9]⟩, false, 0, false⟩).file =
      some ⟨[9, 9], 0o755⟩ :=
  (downloadFile_ignores_httpStatus
    ⟨false, Except.ok ⟨404, [9, 9]⟩, false, 0, false⟩).2 [9, 9] rfl rfl rfl rfl

set_option maxRecDepth 8192 in
/-- C1 (exhibiting the code bug): in secondary mode with `oc` absent from
the search path, on a non-Windows, non-macOS system (GOOS=linux,
GOARCH=amd64) `downloadOpenShiftClient` does not append the
`-linux-amd64.tar.gz` suffix once to the base URL: it appends a full
second copy of the base URL in front of the suffix.  It then downloads to
`<bin>/oc.zip` but dispatches the ZIP extractor (`unzip`, not the
TAR+GZIP path) on `<bin>/oc.tar.gz` — a file it never downloaded.  The
Windows and macOS branches do behave as claimed. -/
theorem downloadOpenShiftClient_linux_divergence :
    (downloadOpenShiftClient "linux" "amd64" (fun _ => false) "/b/" none none).url =
      some (ocToolsBaseURL ++ (ocToolsBaseURL ++ "-linux-amd64.tar.gz")) ∧
    (downloadOpenShiftClient "linux" "amd64" (fun _ => false) "/b/" none none).url ≠
      some (ocToolsBaseURL ++ "-linux-amd64.tar.gz") ∧
    (downloadOpenShiftClient "linux" "amd64" (fun _ => false) "/b/" none none).downloadedTo =
      some "/b/oc.zip" ∧
    (downloadOpenShiftClient "linux" "amd64" (fun _ => false) "/b/" none none).extracted =
      some (Extractor.zipExtractor, "/b/oc.tar.gz", "/b/.") ∧
    ("/b/oc.tar.gz" : String) ≠ "/b/oc.zip" ∧
    (downloadOpenShiftClient "windows" "amd64" (fun _ => false) "/b/" none none).url =
      some (ocToolsBaseURL ++ "-windows.zip") ∧
    (downloadOpenShiftClient "windows" "amd64" (fun _ => false) "/b/" none none).extracted =
      some (Extractor.zipExtractor, "/b/oc.zip", "/b/.") ∧
    (downloadOpenShiftClient "darwin" "amd64" (fun _ => false) "/b/" none none).url =
      some (ocToolsBaseURL ++ "-mac.zip") ∧
    (downloadOpenShiftClient "darwin" "amd64" (fun _ => false) "/b/" none none).extracted =
      some (Extractor.zipExtractor, "/b/oc.zip", "/b/.") := by
  refine ⟨by decide, by decide, by decide, by decide, by decide,
    by decide, by decide, by decide, by decide⟩

/-- C3 (exhibiting the code bug): errors of `os.Chmod` and of the
per-entry `os.MkdirAll` are silently swallowed.  With everything else
succeeding: a failing chmod in `downloadFile` still yields a `nil`
return and a file left at creation mode `0666`; a failing `os.MkdirAll`
for a ZIP directory entry leaves the directory uncreated while `unzip`
returns success; a failing chmod in `unzip` leaves the stored
(non-executable) mode while `unzip` returns success; and a failing chmod
in `ungzip` leaves the creation mode while `ungzip` returns success.  In
each case the error is neither returned nor reflected in the result, so
the claim that such failures make the enclosing function report an error
is false. -/
theorem swallowed_errors_divergence :
    (downloadFile ⟨false, Except.ok ⟨200, [1]⟩, false, 0, true⟩ =
      ⟨none, some ⟨[1], createMode⟩⟩) ∧
    (unzip ⟨fun p => p == ["t", "d"], fun _ => false⟩
        [⟨["d"], true, 0o700, []⟩] ["t"] ⟨[], []⟩ =
      Except.ok ⟨[["t"]], []⟩) ∧
    (unzip ⟨fun _ => false, fun p => p == ["t", "f"]⟩
        [⟨["f"], false, 0o600, [5]⟩] ["t"] ⟨[], []⟩ =
      Except.ok ⟨[["t"]], [(["t", "f"], [5], 0o600)]⟩) ∧
    (ungzip ⟨fun _ => false, fun p => p == ["t", "g"]⟩ "g" [9] ["t"]
        ⟨[["t"]], []⟩ =
      Except.ok ⟨[["t"]], [(["t", "g"], [9], createMode)]⟩) ∧
    (["t", "d"] : GoPath) ∉ ([["t"]] : List GoPath) ∧
    createMode ≠ 0o755 ∧ (0o600 : Nat) ≠ 0o755 := by
  refine ⟨rfl, rfl, rfl, rfl, by decide, by decide, by decide⟩

/-- C6: for every `downloadProperties`, `downloadKubernetes` skips the
version lookup and the download with a success log when the spec's local
binary is already on the search path; otherwise, on a successful version
lookup, it downloads exactly
`baseURL ++ repo ++ "/releases/" ++ extraPath ++ "v" ++ version ++ "/" ++
repo ++ "-" ++ OS ++ "-" ++ arch` (with `".exe"` appended on Windows)
into the install directory under the local binary's name; in secondary
mode the URL hence contains the literal segment `"download/"` followed by
the looked-up version. -/
theorem downloadKubernetes_url_template (d : downloadProperties)
    (goos goarch : String) (onPath : String → Bool)
    (vl : Except GoErr String) (binDir : String) (dlErr : Option GoErr) :
    (onPath (if goos = "windows" then d.kubeBinary ++ ".exe" else d.kubeBinary) = true →
      downloadKubernetes d goos goarch onPath vl binDir dlErr =
        { ret := none, lookedUpVersion := false, downloaded := none,
          alreadyOnPath := true }) ∧
    (∀ v,
      onPath (if goos = "windows" then d.kubeBinary ++ ".exe" else d.kubeBinary) = false →
      vl = Except.ok v →
      (downloadKubernetes d goos goarch onPath vl binDir dlErr).lookedUpVersion = true ∧
      (downloadKubernetes d goos goarch onPath vl binDir dlErr).downloaded =
        some (binDir ++ (if goos = "windows" then d.kubeBinary ++ ".exe" else d.kubeBinary),
          d.downloadURL ++ d.kubeDistroRepo ++ "/releases/" ++ d.extraPath ++
            "v" ++ v ++ "/" ++ d.kubeDistroRepo ++ "-" ++ goos ++ "-" ++ goarch ++
            (if goos = "windows" then ".exe" else ""))) ∧
    (∀ v,
      d = getDownloadProperties true →
      onPath (if goos = "windows" then d.kubeBinary ++ ".exe" else d.kubeBinary) = false →
      vl = Except.ok v →
      ∃ a z, (downloadKubernetes d goos goarch onPath vl binDir dlErr).downloaded =
        some (binDir ++ (if goos = "windows" then d.kubeBinary ++ ".exe" else d.kubeBinary),
          a ++ "download/" ++ "v" ++ v ++ z)) := by
  refine ⟨fun h => ?_, fun v h1 h2 => ?_, fun v hd h1 h2 => ?_⟩
  · simp [downloadKubernetes, h]
  · subst h2
    by_cases hw : goos = "windows" <;>
      simp_all [downloadKubernetes] <;>
      cases dlErr <;>
      simp_all [String.append_assoc, String.append_empty]
  · subst hd
    subst h2
    by_cases hw : goos = "windows"
    · subst hw
      refine ⟨"https://github.com/jimmidyson/minishift/releases/",
        "/" ++ "minishift" ++ "-" ++ "windows" ++ "-" ++ goarch ++ ".exe", ?_⟩
      cases dlErr <;>
        simp_all [downloadKubernetes, getDownloadProperties, minishift,
          minishiftDownloadURL, String.append_assoc]
    · refine ⟨"https://github.com/jimmidyson/minishift/releases/",
        "/" ++ "minishift" ++ "-" ++ goos ++ "-" ++ goarch, ?_⟩
      cases dlErr <;>
        simp_all [downloadKubernetes, getDownloadProperties, minishift,
          minishiftDownloadURL, String.append_assoc]

/-- C8: ZIP round-trip: for every well-formed directory tree (in
particular one with at least one nested subdirectory and one file),
packing it into a ZIP and extracting the ZIP with `unzip` into a target
directory succeeds and reproduces exactly the tree's relative file paths
with identical contents, every extracted regular file carrying permission
mode `0755` (executable) regardless of the mode stored in its archive
entry, and every directory of the tree existing under the target. -/
theorem unzip_pack_roundTrip (t : DirTree) (target : GoPath) (hwf : t.WF)
    (_hnested : ∃ d ∈ t.dirs, 2 ≤ d.length) (_hfile : t.files ≠ []) :
    ∃ fs', unzip noFailFs (pack t) target ⟨[], []⟩ = Except.ok fs' ∧
      fs'.files = t.files.map (fun f => (target ++ f.1, f.2.1, 0o755)) ∧
      ∀ d ∈ t.dirs, (target ++ d) ∈ fs'.dirs := by
  obtain ⟨hd, hf, hnodup⟩ := hwf
  set fs0 : FS := (⟨[], []⟩ : FS).mkdirAll target with hfs0
  set fsD : FS := foldMkdir target t.dirs fs0 with hfsD
  have hfilesD : fsD.files = [] := by
    rw [hfsD, foldMkdir_files]
    rfl
  have hun : unzip noFailFs (pack t) target ⟨[], []⟩ =
      unzipEntries noFailFs target (pack t) fs0 := by
    simp [unzip, noFailFs]
  have h1 : ∀ f ∈ t.files, (target ++ f.1).dropLast = [] ∨
      (target ++ f.1).dropLast ∈ fsD.dirs := by
    intro f hfm
    have hne : f.1 ≠ [] := (hf f hfm).1
    rw [List.dropLast_append_of_ne_nil target hne]
    rcases (hf f hfm).2 with h0 | hdm
    · rw [h0, List.append_nil]
      by_cases ht : target = []
      · exact Or.inl ht
      · refine Or.inr (foldMkdir_dirs_mono target t.dirs fs0 target ?_)
        rw [hfs0]
        simp only [FS.mkdirAll, List.mem_append]
        exact Or.inr (mem_pathPrefixes_self target ht)
    · exact Or.inr (foldMkdir_covers target t.dirs fs0 _ hdm (hd _ hdm))
  have h2 : (t.files.map (fun g => target ++ g.1)).Nodup := by
    have hmm : t.files.map (fun g => target ++ g.1) =
        (t.files.map (fun f => f.1)).map (fun x => target ++ x) := by
      rw [List.map_map]
      rfl
    rw [hmm]
    exact List.Nodup.map (fun a b hab => by simpa using hab) hnodup
  have h3 : ∀ f ∈ t.files, (target ++ f.1) ∉ fsD.files.map (fun f => f.1) := by
    rw [hfilesD]
    simp
  refine ⟨⟨fsD.dirs,
      fsD.files ++ t.files.map (fun f => (target ++ f.1, f.2.1, 0o755))⟩,
    ?_, ?_, ?_⟩
  · rw [hun, pack, unzipEntries_dirPhase, ← hfsD,
      unzipEntries_filePhase target t.files fsD h1 h2 h3]
  · rw [hfilesD]
    simp
  · intro d hdm
    exact foldMkdir_covers target t.dirs fs0 d hdm (hd d hdm)

/-- The concrete tree used to witness the round-trip theorem: one
directory `a` with nested subdirectory `a/b`, a deep file `a/b/f` and a
root file `g`, with non-executable stored modes. -/
def packWitnessTree : DirTree :=
  ⟨[["a"], ["a", "b"]], [(["a", "b", "f"], [1, 2], 0o600), (["g"], [3], 0o644)]⟩

/-- C8 witness: `unzip_pack_roundTrip` at the concrete tree
`packWitnessTree` and target directory `t`. -/
theorem unzip_pack_roundTrip_witness :
    ∃ fs', unzip noFailFs (pack packWitnessTree) ["t"] ⟨[], []⟩ =
        Except.ok fs' ∧
      fs'.files = packWitnessTree.files.map
        (fun f => (["t"] ++ f.1, f.2.1, 0o755)) ∧
      ∀ d ∈ packWitnessTree.dirs, (["t"] ++ d) ∈ fs'.dirs :=
  unzip_pack_roundTrip packWitnessTree ["t"]
    (by constructor
        · decide
        · constructor
          · decide
          · decide)
    ⟨["a", "b"], by decide, by decide⟩ (by decide)

/-- C9: the tag parsing of the version lookup: for the tag `"v1.2.3"`
the parsed version is exactly 1.2.3 (the leading `v` is stripped before
semantic-version parsing); and parsing is sound — whenever `semver.Make`
accepts a string, rendering the parsed version reproduces that string
exactly — so for a tag without a leading `v` (which `TrimPrefix` leaves
unchanged) the pipeline either yields exactly the version the tag spells
or fails; being a function, it fails deterministically. -/
theorem parseReleaseTag_spec :
    parseReleaseTag (some "v1.2.3".toList) =
      Except.ok ⟨1, 2, 3, [], []⟩ ∧
    (∀ tag v, semverMake tag = Except.ok v → semverRender v = tag) ∧
    (∀ tag v, ¬ (['v'] <+: tag) →
      parseReleaseTag (some tag) = Except.ok v → semverRender v = tag) := by
  refine ⟨by rfl, fun tag v h => semverMake_render tag v h,
    fun tag v hp h => ?_⟩
  have htrim : goTrimPre ['v'] tag = tag := by rw [goTrimPre, if_neg hp]
  rw [parseReleaseTag, htrim] at h
  exact semverMake_render tag v h

/-- C9 witness: the soundness clause of `parseReleaseTag_spec` applied
at the concrete unprefixed tag `"1.2.3"`. -/
theorem parseReleaseTag_spec_witness :
    semverRender ⟨1, 2, 3, [], []⟩ = "1.2.3".toList :=
  parseReleaseTag_spec.2.2 "1.2.3".toList ⟨1, 2, 3, [], []⟩ (by decide)
    (by rfl)

/-- C6 witness: `downloadKubernetes_url_template` applied in secondary
mode on linux/amd64 with nothing on the search path and a successful
lookup of version 1.2.3. -/
theorem downloadKubernetes_url_template_witness :
    (downloadKubernetes (getDownloadProperties true) "linux" "amd64"
        (fun _ => false) (Except.ok "1.2.3") "/b/" none).lookedUpVersion = true ∧
    (downloadKubernetes (getDownloadProperties true) "linux" "amd64"
        (fun _ => false) (Except.ok "1.2.3") "/b/" none).downloaded =
      some ("/b/" ++ "minishift",
        "https://github.com/jimmidyson/" ++ "minishift" ++ "/releases/" ++
          "download/" ++ "v" ++ "1.2.3" ++ "/" ++ "minishift" ++ "-" ++
          "linux" ++ "-" ++ "amd64" ++ "") :=
  (downloadKubernetes_url_template (getDownloadProperties true) "linux" "amd64"
    (fun _ => false) (Except.ok "1.2.3") "/b/" none).2.1 "1.2.3" rfl rfl

end Gofabric8
